import Mathlib

/-!
Shallow embedding of the Cellars wine-inventory server: the storage layer
(`server/storage.ts`, classes `MemStorage` and `DatabaseStorage`), the request
handlers that validate input (`server/routes.ts`), and the shared schema
(`shared/schema.ts`).  JavaScript `Map` objects are modelled as association
lists with the `Map` access semantics, machine numbers as `Int`/`Nat`, and
nullable/optional columns as `Option`.  Theorems checking the specification's
claims follow the definitions.
-/

namespace Cellars

/-- Vintage-year stock entry (`shared/schema.ts`, interface `VintageStock`). -/
structure VintageStock where
  vintage : Int
  stock : Int
  deriving DecidableEq

/-- A stored inventory record (`shared/schema.ts`, table `wines`, type `Wine`).
Nullable columns are `Option`; `createdAt` is the timestamp string the store
stamps at creation. -/
structure Wine where
  id : Nat
  userId : String
  name : String
  category : String
  wine : Option String
  subType : Option String
  producer : Option String
  region : Option String
  country : Option String
  stockLevel : Int
  vintageStocks : List VintageStock
  imageUrl : Option String
  rating : Option Int
  notes : Option String
  createdAt : String
  deriving DecidableEq

/-- Input for a create (`InsertWine` = the wine row minus `id`/`createdAt`,
per `insertWineSchema` in `shared/schema.ts`). -/
structure InsertWine where
  userId : String
  name : String
  category : String
  wine : Option String := none
  subType : Option String := none
  producer : Option String := none
  region : Option String := none
  country : Option String := none
  stockLevel : Int := 0
  vintageStocks : List VintageStock := []
  imageUrl : Option String := none
  rating : Option Int := none
  notes : Option String := none
  deriving DecidableEq

/-- A partial update (`Partial<InsertWine>`): `none` marks a key absent from
the patch; for nullable columns the inner `Option` is the supplied value. -/
structure WinePatch where
  userId : Option String := none
  name : Option String := none
  category : Option String := none
  wine : Option (Option String) := none
  subType : Option (Option String) := none
  producer : Option (Option String) := none
  region : Option (Option String) := none
  country : Option (Option String) := none
  stockLevel : Option Int := none
  vintageStocks : Option (List VintageStock) := none
  imageUrl : Option (Option String) := none
  rating : Option (Option Int) := none
  notes : Option (Option String) := none
  deriving DecidableEq

/-- The empty patch `{}`. -/
def emptyPatch : WinePatch := {}

/-- Spread-merge `{ ...existing, ...patch }` used by `MemStorage.updateWine`:
a key present in the patch overrides, an absent key keeps the stored value;
`id` and `createdAt` are not part of `InsertWine` and are never overridden. -/
def mergeWine (e : Wine) (p : WinePatch) : Wine :=
  { id := e.id
    userId := p.userId.getD e.userId
    name := p.name.getD e.name
    category := p.category.getD e.category
    wine := p.wine.getD e.wine
    subType := p.subType.getD e.subType
    producer := p.producer.getD e.producer
    region := p.region.getD e.region
    country := p.country.getD e.country
    stockLevel := p.stockLevel.getD e.stockLevel
    vintageStocks := p.vintageStocks.getD e.vintageStocks
    imageUrl := p.imageUrl.getD e.imageUrl
    rating := p.rating.getD e.rating
    notes := p.notes.getD e.notes
    createdAt := e.createdAt }

/-- Lookup in a JavaScript `Map` modelled as an association list
(`Map.get`): first entry with the key. -/
def mapGet {α : Type} : List (Nat × α) → Nat → Option α
  | [], _ => none
  | kv :: t, i => if kv.1 == i then some kv.2 else mapGet t i

/-- Key-membership test (`Map.has`). -/
def mapHas {α : Type} : List (Nat × α) → Nat → Bool
  | [], _ => false
  | kv :: t, i => kv.1 == i || mapHas t i

/-- Replace the value stored under an existing key, in place. -/
def mapReplace {α : Type} : List (Nat × α) → Nat → α → List (Nat × α)
  | [], _, _ => []
  | kv :: t, i, v => (if kv.1 == i then (i, v) else kv) :: mapReplace t i v

/-- JavaScript `Map.set`: update in place if the key exists, else append. -/
def mapSet {α : Type} (m : List (Nat × α)) (i : Nat) (v : α) : List (Nat × α) :=
  if mapHas m i then mapReplace m i v else m ++ [(i, v)]

/-- Removal of a key (`Map.delete`, list part). -/
def mapRemove {α : Type} : List (Nat × α) → Nat → List (Nat × α)
  | [], _ => []
  | kv :: t, i => if kv.1 == i then mapRemove t i else kv :: mapRemove t i

/-- Values in insertion order (`Array.from(map.values())`). -/
def mapValues {α : Type} (m : List (Nat × α)) : List α := m.map (fun kv => kv.2)

/-- State of `MemStorage`'s wine inventory: the `wineStore` map and the
`wineCurrentId` counter. -/
structure MemState where
  wineStore : List (Nat × Wine)
  wineCurrentId : Nat
  deriving DecidableEq

/-- The freshly constructed store (`new MemStorage()`): empty map, counter 1. -/
def memInit : MemState := { wineStore := [], wineCurrentId := 1 }

/-- Method `MemStorage.addWine`: takes the current counter value as the id,
increments the counter, stamps `createdAt` (passed in here as the
environment-supplied clock string), and stores `{ ...wine, id, createdAt }`. -/
def addWine (s : MemState) (w : InsertWine) (createdAt : String) : MemState × Wine :=
  let i := s.wineCurrentId
  let newWine : Wine :=
    { id := i, userId := w.userId, name := w.name, category := w.category,
      wine := w.wine, subType := w.subType, producer := w.producer,
      region := w.region, country := w.country, stockLevel := w.stockLevel,
      vintageStocks := w.vintageStocks, imageUrl := w.imageUrl,
      rating := w.rating, notes := w.notes, createdAt := createdAt }
  ({ wineStore := mapSet s.wineStore i newWine, wineCurrentId := i + 1 }, newWine)

/-- Method `MemStorage.updateWine`: `undefined` (here `none`) when the id is
absent, otherwise spread-merge the patch onto the existing record and store
the result. -/
def updateWine (s : MemState) (i : Nat) (p : WinePatch) : MemState × Option Wine :=
  match mapGet s.wineStore i with
  | none => (s, none)
  | some existing =>
    let updated := mergeWine existing p
    ({ s with wineStore := mapSet s.wineStore i updated }, some updated)

/-- Method `MemStorage.deleteWine`: `Map.delete` returns whether the key was
present and removes it. -/
def deleteWine (s : MemState) (i : Nat) : MemState × Bool :=
  ({ s with wineStore := mapRemove s.wineStore i }, mapHas s.wineStore i)

/-- Method `MemStorage.getWines`.  In the source the method declares no
parameter, while the `GET /api/wines` handler passes the authenticated
`userId`; mirroring JavaScript semantics the extra argument is accepted and
ignored, so the body returns every stored record. -/
def getWines (s : MemState) (_ownerId : Option String) : List Wine :=
  mapValues s.wineStore

/-- Method `MemStorage.getWineById`. -/
def getWineById (s : MemState) (i : Nat) : Option Wine := mapGet s.wineStore i

/-- Sum of the per-vintage stocks, the quantity the spec's reconciliation
invariant compares `stockLevel` against (`reduce((sum, v) => sum + v.stock, 0)`
in the client). -/
def sumStocks (l : List VintageStock) : Int := l.foldl (fun acc v => acc + v.stock) 0

/-- Catalog entry as stored by `MemStorage` (`shared/schema.ts`, type
`WineCatalog`); the loader always supplies plain strings, with `""` for a
missing column. -/
structure WineCatalogEntry where
  id : Nat
  name : String
  category : String
  producer : String
  region : String
  country : String
  deriving DecidableEq

/-- One record produced by `csv-parse` with `columns: true`: the row keyed by
the header names.  The empty string stands for a missing or empty cell, which
is exactly what JavaScript's `||` defaulting treats as falsy. -/
structure CsvRow where
  name : String := ""
  category : String := ""
  producer : String := ""
  region : String := ""
  country : String := ""
  deriving DecidableEq

/-- JavaScript string defaulting `s || d`: the default when the string is
empty (falsy), the string itself otherwise. -/
def jsOr (s d : String) : String := if s = "" then d else s

/-- The catalog entry `MemStorage.loadWineCatalogFromCSV` builds from one
parsed row: `record.name || ''`, `record.category || 'Other'`, etc. -/
def memEntry (i : Nat) (r : CsvRow) : WineCatalogEntry :=
  { id := i, name := jsOr r.name "", category := jsOr r.category "Other",
    producer := jsOr r.producer "", region := jsOr r.region "",
    country := jsOr r.country "" }

/-- State of `MemStorage`'s catalog: the `catalogStore` map and the
`catalogCurrentId` counter. -/
structure MemCatalogState where
  catalogStore : List (Nat × WineCatalogEntry)
  catalogCurrentId : Nat
  deriving DecidableEq

/-- The catalog state of a freshly constructed `MemStorage`. -/
def memCatInit : MemCatalogState := { catalogStore := [], catalogCurrentId := 1 }

/-- The parser loop of `MemStorage.loadWineCatalogFromCSV`: for each row in
order, take a fresh id from the counter and `set` the built entry into the
(existing, never cleared) `catalogStore`. -/
def memLoadRows : List (Nat × WineCatalogEntry) × Nat → List CsvRow → List (Nat × WineCatalogEntry) × Nat
  | acc, [] => acc
  | (cat, next), r :: rest => memLoadRows (mapSet cat next (memEntry next r), next + 1) rest

/-- The external CSV source as the loader sees it: `none` when the file does
not exist, `some rows` for a file whose header parses to the given data rows
(a header-only file is `some []`). -/
structure CatalogFS where
  file : Option (List CsvRow)
  deriving DecidableEq

/-- Method `MemStorage.loadWineCatalogFromCSV`: when the source file is
missing it writes a header-only file and then streams it through the parser
(zero data rows); otherwise it parses the existing file.  Returns the file
state, the catalog state, and whether a header-only file was created. -/
def memRefresh (fs : CatalogFS) (s : MemCatalogState) : CatalogFS × MemCatalogState × Bool :=
  match fs.file with
  | none =>
    let r := memLoadRows (s.catalogStore, s.catalogCurrentId) []
    ({ file := some [] }, { catalogStore := r.1, catalogCurrentId := r.2 }, true)
  | some rows =>
    let r := memLoadRows (s.catalogStore, s.catalogCurrentId) rows
    (fs, { catalogStore := r.1, catalogCurrentId := r.2 }, false)

/-- Method `MemStorage.getWineCatalog`: all stored entries. -/
def getWineCatalog (s : MemCatalogState) : List WineCatalogEntry :=
  mapValues s.catalogStore

/-- Catalog row as `DatabaseStorage.loadWineCatalogFromCSV` inserts it:
missing optional columns become `null` rather than `''`. -/
structure DbCatalogRow where
  name : String
  category : String
  producer : Option String
  region : Option String
  country : Option String
  deriving DecidableEq

/-- JavaScript `s || null` on a string: `none` when empty. -/
def jsOrNull (s : String) : Option String := if s = "" then none else some s

/-- Row built by `DatabaseStorage.loadWineCatalogFromCSV` from a parsed
record. -/
def dbParseRow (r : CsvRow) : DbCatalogRow :=
  { name := jsOr r.name "", category := jsOr r.category "Other",
    producer := jsOrNull r.producer, region := jsOrNull r.region,
    country := jsOrNull r.country }

/-- Method `DatabaseStorage.loadWineCatalogFromCSV`: when the source is
missing it writes the header-only file and resolves at once, leaving the
table untouched; otherwise it parses every row, deletes the whole table and
bulk-inserts the parsed batch. -/
def dbRefresh (fs : CatalogFS) (cur : List DbCatalogRow) : CatalogFS × List DbCatalogRow × Bool :=
  match fs.file with
  | none => ({ file := some [] }, cur, true)
  | some rows => (fs, rows.map dbParseRow, false)

/-- Method `DatabaseStorage.getWineById`: `db.select().from(wines).where(eq(wines.id, id))`
returns the matching rows and the destructuring `[wine]` takes the first one,
`undefined` when there is none. -/
def dbGetWineById (tbl : List Wine) (i : Nat) : Option Wine :=
  tbl.find? (fun w => w.id == i)

/-- Method `DatabaseStorage.deleteWine`: `db.delete(wines).where(eq(wines.id, id))`
removes every row with the id, and the method returns `!!result` — the
awaited query result is an object, which is truthy whether or not any row
matched, so the returned flag is always `true`. -/
def dbDeleteWine (tbl : List Wine) (i : Nat) : List Wine × Bool :=
  (tbl.filter (fun w => w.id != i), true)

/-- ASCII lowering of one character, the effect of JavaScript
`toLowerCase()` on the character data appearing in this development. -/
def charLower (c : Char) : Char :=
  if 65 ≤ c.toNat ∧ c.toNat ≤ 90 then Char.ofNat (c.toNat + 32) else c

/-- String lowering (`toLowerCase()`), character by character. -/
def toLowerStr (s : String) : String := ⟨s.data.map charLower⟩

/-- Helper for substring search: does the second list start with the first? -/
def leadsWith : List Char → List Char → Bool
  | [], _ => true
  | _ :: _, [] => false
  | a :: as, b :: bs => a == b && leadsWith as bs

/-- Occurrence of `needle` anywhere in the haystack, the semantics of
JavaScript `String.prototype.includes` (an empty needle always occurs). -/
def subOccurs (needle : List Char) : List Char → Bool
  | [] => needle.isEmpty
  | b :: bs => leadsWith needle (b :: bs) || subOccurs needle bs

/-- JavaScript `hay.includes(needle)`. -/
def strIncludes (hay needle : String) : Bool := subOccurs needle.data hay.data

/-- Method `MemStorage.searchWineCatalog` applied to the entry list: lower the
query once, keep entries whose lowered `name` contains it, or whose `producer`
is truthy (non-empty) and its lowered form contains it. -/
def memSearch (q : String) (cat : List WineCatalogEntry) : List WineCatalogEntry :=
  let lq := toLowerStr q
  cat.filter (fun w =>
    strIncludes (toLowerStr w.name) lq ||
    (w.producer != "" && strIncludes (toLowerStr w.producer) lq))

/-- Method `MemStorage.searchWineCatalog` at the store level. -/
def searchWineCatalog (s : MemCatalogState) (q : String) : List WineCatalogEntry :=
  memSearch q (mapValues s.catalogStore)

/-- The category enum of `shared/schema.ts` (`WineCategory`). -/
def wineCategories : List String :=
  ["Red", "White", "Rose", "Fortified", "Beer", "Cider", "Whiskies", "Other"]

/-- Validation performed by `insertWineSchema` (`shared/schema.ts`), the
schema the `POST /api/wines` and `PATCH /api/wines/:id` handlers parse with.
Structural typing (required `name`/`category`/`userId` strings, numeric
fields, the `VintageStock` shape) is carried by the Lean types; the only
value-level constraint the schema adds is the rating range, via
`rating: z.number().min(1).max(5).nullable().optional()`.  No constraint is
placed on `category`, `stockLevel` or `vintageStocks`. -/
def insertWineValidate (w : InsertWine) : Bool :=
  match w.rating with
  | none => true
  | some r => decide (1 ≤ r) && decide (r ≤ 5)

/-- Categories accepted by the client-side `wineFormSchema` enum (note:
`Whiskies` is absent from this enum in the source). -/
def wineFormCategories : List String :=
  ["Red", "White", "Rose", "Fortified", "Beer", "Cider", "Other"]

/-- Validation performed by the client-side `wineFormSchema`
(`shared/schema.ts`): name length, category enum, non-negative stock, vintage
years between 1900 and the current calendar year with non-negative stock,
plus everything `insertWineSchema` checks. -/
def wineFormValidate (currentYear : Int) (w : InsertWine) : Bool :=
  decide (2 ≤ w.name.length) &&
  decide (w.category ∈ wineFormCategories) &&
  decide (0 ≤ w.stockLevel) &&
  w.vintageStocks.all (fun v =>
    decide (1900 ≤ v.vintage) && decide (v.vintage ≤ currentYear) && decide (0 ≤ v.stock)) &&
  insertWineValidate w

/-- The `POST /api/wines` handler body: parse with `insertWineSchema`; on
failure answer 400 (`none`) without touching the store, on success call
`addWine`. -/
def postWine (s : MemState) (input : InsertWine) (createdAt : String) : MemState × Option Wine :=
  if insertWineValidate input then
    let r := addWine s input createdAt
    (r.1, some r.2)
  else (s, none)

/-- Validation of a partial body by `insertWineSchema.partial()`: each
supplied field is checked by its field schema; only the rating carries a
value-level constraint. -/
def patchValidate (p : WinePatch) : Bool :=
  match p.rating with
  | some (some r) => decide (1 ≤ r) && decide (r ≤ 5)
  | _ => true

/-- The `PATCH /api/wines/:id` handler body: parse the partial schema first,
answering 400 (`none`) without touching the store on failure, then call
`updateWine`. -/
def patchWine (s : MemState) (i : Nat) (p : WinePatch) : MemState × Option Wine :=
  if patchValidate p then updateWine s i p else (s, none)

/-- One inventory operation against `MemStorage`, for whole-lifetime
statements about the store. -/
inductive MemOp where
  | add (w : InsertWine) (createdAt : String)
  | update (i : Nat) (p : WinePatch)
  | del (i : Nat)
  deriving DecidableEq

/-- Effect of one operation on the store state. -/
def stepState (s : MemState) : MemOp → MemState
  | MemOp.add w c => (addWine s w c).1
  | MemOp.update i p => (updateWine s i p).1
  | MemOp.del i => (deleteWine s i).1

/-- The ids handed out by the create operations of a run, in order. -/
def traceAdds : MemState → List MemOp → List Nat
  | _, [] => []
  | s, MemOp.add w c :: rest => s.wineCurrentId :: traceAdds (stepState s (MemOp.add w c)) rest
  | s, MemOp.update i p :: rest => traceAdds (stepState s (MemOp.update i p)) rest
  | s, MemOp.del i :: rest => traceAdds (stepState s (MemOp.del i)) rest

/-- Specification-side description of the entries one `MemStorage` refresh
appends: one entry per row, ids counted up from `next`. -/
def buildEntries : Nat → List CsvRow → List (Nat × WineCatalogEntry)
  | _, [] => []
  | next, r :: rest => (next, memEntry next r) :: buildEntries (next + 1) rest

/-- Concrete create input: a Red wine with one 2020 vintage of 3 bottles but a
caller-supplied `stockLevel` of 99. -/
def exInsertRed : InsertWine :=
  { userId := "alice", name := "Test Red", category := "Red",
    stockLevel := 99, vintageStocks := [⟨2020, 3⟩] }

/-- Store after creating `exInsertRed` in a fresh store. -/
def exState1 : MemState := (addWine memInit exInsertRed "2026-01-01").1

/-- The record returned by that create. -/
def exWine1 : Wine := (addWine memInit exInsertRed "2026-01-01").2

/-- Concrete patch supplying a second write for the already-present year
2020 with stock 2. -/
def exPatchV : WinePatch := { vintageStocks := some [⟨2020, 2⟩] }

/-- Concrete create input whose `vintageStocks` holds two entries for the
same year. -/
def exInsertDup : InsertWine :=
  { userId := "alice", name := "Dup Red", category := "Red",
    stockLevel := 5, vintageStocks := [⟨2020, 3⟩, ⟨2020, 2⟩] }

/-- Create input owned by user `alice`. -/
def exInsertAlice : InsertWine :=
  { userId := "alice", name := "A Wine", category := "Red" }

/-- Create input owned by user `bob`. -/
def exInsertBob : InsertWine :=
  { userId := "bob", name := "B Wine", category := "White" }

/-- Store holding one record of `alice` (id 1) and one of `bob` (id 2). -/
def exStateAB : MemState :=
  (addWine (addWine memInit exInsertAlice "t1").1 exInsertBob "t2").1

/-- One CSV data row carrying only a name. -/
def exRow1 : CsvRow := { name := "Nice Wine" }

/-- A catalog entry present before a refresh. -/
def exCat0 : WineCatalogEntry :=
  { id := 1, name := "Old Entry", category := "Red", producer := "",
    region := "", country := "" }

/-- Mem catalog state already holding `exCat0` under id 1, counter at 2. -/
def exCatStateOld : MemCatalogState :=
  { catalogStore := [(1, exCat0)], catalogCurrentId := 2 }

/-- A one-entry catalog used against the empty search query. -/
def exCatA : WineCatalogEntry :=
  { id := 1, name := "Alpha", category := "Red", producer := "",
    region := "", country := "" }

/-- Well-typed create input violating everything the claim says the boundary
rejects except the rating: a category outside the enum, a far-future vintage
year, negative stocks. -/
def exBadCategory : InsertWine :=
  { userId := "alice", name := "Mystery", category := "Grape Soda",
    stockLevel := -1, vintageStocks := [⟨9999, -4⟩] }

/-- Create input with an out-of-range rating, the one constraint
`insertWineSchema` does enforce. -/
def exBadRated : InsertWine :=
  { userId := "alice", name := "X", category := "Red", rating := some 6 }

/-! Support lemmas about the map model and the search/refresh helpers. -/

/-- Looking a key up after removing it finds nothing. -/
theorem mapGet_mapRemove {α : Type} (m : List (Nat × α)) (i : Nat) :
    mapGet (mapRemove m i) i = none := by
  induction m with
  | nil => rfl
  | cons kv t ih =>
    cases hb : (kv.1 == i) with
    | true => simpa [mapRemove, hb] using ih
    | false => simpa [mapRemove, mapGet, hb] using ih

/-- A removed key is no longer present. -/
theorem mapHas_mapRemove {α : Type} (m : List (Nat × α)) (i : Nat) :
    mapHas (mapRemove m i) i = false := by
  induction m with
  | nil => rfl
  | cons kv t ih =>
    cases hb : (kv.1 == i) with
    | true => simpa [mapRemove, hb] using ih
    | false => simpa [mapRemove, mapHas, hb] using ih

/-- A lookup succeeds exactly when the key is present. -/
theorem mapGet_isSome_eq_mapHas {α : Type} (m : List (Nat × α)) (i : Nat) :
    (mapGet m i).isSome = mapHas m i := by
  induction m with
  | nil => rfl
  | cons kv t ih =>
    cases hb : (kv.1 == i) with
    | true => simp [mapGet, mapHas, hb]
    | false => simpa [mapGet, mapHas, hb] using ih

/-- Replacing one key leaves lookups of other keys unchanged. -/
theorem mapGet_mapReplace_ne {α : Type} (m : List (Nat × α)) (i j : Nat) (v : α)
    (h : j ≠ i) : mapGet (mapReplace m i v) j = mapGet m j := by
  induction m with
  | nil => rfl
  | cons kv t ih =>
    cases hb : (kv.1 == i) with
    | true =>
      have hk : kv.1 = i := by simpa using hb
      have hij : (i == j) = false := by
        rw [beq_eq_false_iff_ne]; exact fun e => h e.symm
      have hkj : (kv.1 == j) = false := by rw [hk]; exact hij
      simpa [mapReplace, mapGet, hb, hij, hkj] using ih
    | false => simp [mapReplace, mapGet, hb, ih]

/-- Replacing a present key makes lookups of that key return the new value. -/
theorem mapGet_mapReplace_self {α : Type} (m : List (Nat × α)) (i : Nat) (v : α)
    (h : mapHas m i = true) : mapGet (mapReplace m i v) i = some v := by
  induction m with
  | nil => exact absurd h (by simp [mapHas])
  | cons kv t ih =>
    cases hb : (kv.1 == i) with
    | true => simp [mapReplace, mapGet, hb]
    | false =>
      have ht : mapHas t i = true := by simpa [mapHas, hb] using h
      simpa [mapReplace, mapGet, hb] using ih ht

/-- Lookup of a key other than the appended one skips the appended entry. -/
theorem mapGet_append_single {α : Type} (m : List (Nat × α)) (i j : Nat) (v : α)
    (h : j ≠ i) : mapGet (m ++ [(i, v)]) j = mapGet m j := by
  induction m with
  | nil =>
    have hij : (i == j) = false := by
      rw [beq_eq_false_iff_ne]; exact fun e => h e.symm
    simp [mapGet, hij]
  | cons kv t ih =>
    cases hb : (kv.1 == j) with
    | true => simp [mapGet, hb]
    | false => simpa [mapGet, hb] using ih

/-- Setting a present key makes its lookup return the new value. -/
theorem mapGet_mapSet_self {α : Type} (m : List (Nat × α)) (i : Nat) (v : α)
    (h : mapHas m i = true) : mapGet (mapSet m i v) i = some v := by
  rw [mapSet, if_pos h]; exact mapGet_mapReplace_self m i v h

/-- Setting one key leaves lookups of other keys unchanged. -/
theorem mapGet_mapSet_ne {α : Type} (m : List (Nat × α)) (i j : Nat) (v : α)
    (h : j ≠ i) : mapGet (mapSet m i v) j = mapGet m j := by
  unfold mapSet
  split
  · exact mapGet_mapReplace_ne m i j v h
  · exact mapGet_append_single m i j v h

/-- A key above every stored key is absent. -/
theorem mapHas_of_lt {α : Type} (m : List (Nat × α)) (i : Nat)
    (h : ∀ kv ∈ m, kv.1 < i) : mapHas m i = false := by
  induction m with
  | nil => rfl
  | cons kv t ih =>
    have h1 : kv.1 < i := h kv (by simp)
    have hb : (kv.1 == i) = false := by rw [beq_eq_false_iff_ne]; omega
    simp only [mapHas, hb, Bool.false_or]
    exact ih (fun kv2 hk => h kv2 (by simp [hk]))

/-- The empty patch merges to the unmodified record. -/
theorem mergeWine_empty (w : Wine) : mergeWine w emptyPatch = w := rfl

/-- An update never moves the id counter. -/
theorem updateWine_counter (s : MemState) (i : Nat) (p : WinePatch) :
    ((updateWine s i p).1).wineCurrentId = s.wineCurrentId := by
  cases hg : mapGet s.wineStore i <;> simp [updateWine, hg]

/-- No single operation decreases the id counter. -/
theorem stepState_counter_le (s : MemState) (op : MemOp) :
    s.wineCurrentId ≤ (stepState s op).wineCurrentId := by
  cases op with
  | add w c => exact Nat.le_succ s.wineCurrentId
  | update i p => exact le_of_eq (updateWine_counter s i p).symm
  | del i => exact Nat.le_refl _

/-- Every id handed out along a run is at least the starting counter. -/
theorem traceAdds_lb : ∀ (ops : List MemOp) (s : MemState) (x : Nat),
    x ∈ traceAdds s ops → s.wineCurrentId ≤ x := by
  intro ops
  induction ops with
  | nil => intro s x hx; simp [traceAdds] at hx
  | cons op rest ih =>
    intro s x hx
    cases op with
    | add w c =>
      rw [show traceAdds s (MemOp.add w c :: rest)
            = s.wineCurrentId :: traceAdds (stepState s (MemOp.add w c)) rest from rfl] at hx
      rcases List.mem_cons.mp hx with h | h
      · exact le_of_eq h.symm
      · exact le_trans (stepState_counter_le s (MemOp.add w c)) (ih _ _ h)
    | update i p =>
      rw [show traceAdds s (MemOp.update i p :: rest)
            = traceAdds (stepState s (MemOp.update i p)) rest from rfl] at hx
      exact le_trans (stepState_counter_le s (MemOp.update i p)) (ih _ _ hx)
    | del i =>
      rw [show traceAdds s (MemOp.del i :: rest)
            = traceAdds (stepState s (MemOp.del i)) rest from rfl] at hx
      exact le_trans (stepState_counter_le s (MemOp.del i)) (ih _ _ hx)

/-- The ids handed out along any run are strictly increasing. -/
theorem traceAdds_pairwise : ∀ (ops : List MemOp) (s : MemState),
    List.Pairwise (fun a b => a < b) (traceAdds s ops) := by
  intro ops
  induction ops with
  | nil => intro s; simp [traceAdds]
  | cons op rest ih =>
    intro s
    cases op with
    | add w c =>
      rw [show traceAdds s (MemOp.add w c :: rest)
            = s.wineCurrentId :: traceAdds (stepState s (MemOp.add w c)) rest from rfl]
      refine List.Pairwise.cons ?_ (ih _)
      intro y hy
      have h1 : (stepState s (MemOp.add w c)).wineCurrentId ≤ y := traceAdds_lb rest _ y hy
      have h2 : (stepState s (MemOp.add w c)).wineCurrentId = s.wineCurrentId + 1 := rfl
      omega
    | update i p =>
      rw [show traceAdds s (MemOp.update i p :: rest)
            = traceAdds (stepState s (MemOp.update i p)) rest from rfl]
      exact ih _
    | del i =>
      rw [show traceAdds s (MemOp.del i :: rest)
            = traceAdds (stepState s (MemOp.del i)) rest from rfl]
      exact ih _

/-- An empty needle occurs in every haystack. -/
theorem subOccurs_nil (hay : List Char) : subOccurs [] hay = true := by
  induction hay with
  | nil => rfl
  | cons b bs ih => simp [subOccurs, leadsWith]

/-- Every string `includes` the empty string, as in JavaScript. -/
theorem strIncludes_empty (s : String) : strIncludes s "" = true := by
  have h : ("" : String).data = [] := rfl
  simp [strIncludes, h, subOccurs_nil]

/-- Lowering the empty string gives the empty string. -/
theorem toLowerStr_empty : toLowerStr "" = "" := rfl

/-- Searching with the empty query keeps every entry. -/
theorem memSearch_empty_query (cat : List WineCatalogEntry) : memSearch "" cat = cat := by
  simp [memSearch, toLowerStr_empty, strIncludes_empty]

/-- Unrolling of the `MemStorage` catalog-refresh loop: starting from a store
whose keys are all below the counter, the loop appends exactly one entry per
row and advances the counter by the number of rows. -/
theorem memLoadRows_eq : ∀ (rows : List CsvRow) (cat : List (Nat × WineCatalogEntry)) (next : Nat),
    (∀ kv ∈ cat, kv.1 < next) →
    memLoadRows (cat, next) rows = (cat ++ buildEntries next rows, next + rows.length) := by
  intro rows
  induction rows with
  | nil => intro cat next _; simp [memLoadRows, buildEntries]
  | cons r rest ih =>
    intro cat next h
    have hset : mapSet cat next (memEntry next r) = cat ++ [(next, memEntry next r)] := by
      simp [mapSet, mapHas_of_lt cat next h]
    rw [show memLoadRows (cat, next) (r :: rest)
          = memLoadRows (mapSet cat next (memEntry next r), next + 1) rest from rfl, hset]
    have hkeys : ∀ kv ∈ cat ++ [(next, memEntry next r)], kv.1 < next + 1 := by
      intro kv hkv
      rcases List.mem_append.mp hkv with h1 | h1
      · exact Nat.lt_succ_of_lt (h kv h1)
      · rcases List.mem_singleton.mp h1 with rfl; exact Nat.lt_succ_self next
    rw [ih (cat ++ [(next, memEntry next r)]) (next + 1) hkeys]
    rw [Prod.ext_iff]
    constructor
    · simp [buildEntries, List.append_assoc]
    · simp; omega

/-- One appended entry per source row. -/
theorem buildEntries_length : ∀ (rows : List CsvRow) (next : Nat),
    (buildEntries next rows).length = rows.length := by
  intro rows
  induction rows with
  | nil => intro next; rfl
  | cons r rest ih => intro next; simp [buildEntries, ih]

/-- Entry `j` appended by a refresh is row `j` with the defaults applied and
id `next + j`. -/
theorem buildEntries_get? : ∀ (rows : List CsvRow) (next j : Nat),
    (buildEntries next rows).get? j
      = (rows.get? j).map (fun r => (next + j, memEntry (next + j) r)) := by
  intro rows
  induction rows with
  | nil => intro next j; simp [buildEntries]
  | cons r rest ih =>
    intro next j
    cases j with
    | zero => simp [buildEntries]
    | succ k =>
      have harith : next + 1 + k = next + (k + 1) := by omega
      simpa [buildEntries, harith] using ih (next + 1) k

/-! Claim theorems. -/

/-- C1, counterexample: creating a Red wine whose `vintageStocks` sum to 3
while the caller supplies `stockLevel = 99` stores `stockLevel = 99` — the
store does not recompute the total, so the claimed reconciliation invariant
fails on a vintage-tracked category with non-empty `vintageStocks`. -/
theorem C1_counterexample :
    (addWine memInit exInsertRed "2026-01-01").2.category = "Red"
    ∧ (addWine memInit exInsertRed "2026-01-01").2.vintageStocks ≠ []
    ∧ (addWine memInit exInsertRed "2026-01-01").2.stockLevel
        ≠ sumStocks ((addWine memInit exInsertRed "2026-01-01").2.vintageStocks) := by
  decide

/-- C1, amended: the store persists the caller-supplied `stockLevel` and
`vintageStocks` verbatim on create, and an update stores the patched value of
`stockLevel` (the supplied one if present, the old one otherwise); hence the
stored `stockLevel` equals the sum of the vintage stocks exactly when the
caller supplied values already satisfying that equation. -/
theorem C1_amended : ∀ (s : MemState) (w : InsertWine) (c : String) (w0 : Wine) (p : WinePatch),
    ((addWine s w c).2.stockLevel = sumStocks ((addWine s w c).2.vintageStocks)
       ↔ w.stockLevel = sumStocks w.vintageStocks)
    ∧ (addWine s w c).2.stockLevel = w.stockLevel
    ∧ (addWine s w c).2.vintageStocks = w.vintageStocks
    ∧ (mergeWine w0 p).stockLevel = p.stockLevel.getD w0.stockLevel := by
  intro s w c w0 p
  exact ⟨Iff.rfl, rfl, rfl, rfl⟩

/-- C2, counterexample: a create supplying two entries for the year 2020
stores both of them, so duplicate years coexist; and a second write for an
existing year 2020 (stock 2 onto a stored stock 3) replaces the list with the
supplied one, yielding `[{2020, 2}]` rather than the merged `[{2020, 5}]`. -/
theorem C2_counterexample :
    (addWine memInit exInsertDup "t").2.vintageStocks = [⟨2020, 3⟩, ⟨2020, 2⟩]
    ∧ ¬ List.Pairwise (fun a b => a.vintage ≠ b.vintage)
        ((addWine memInit exInsertDup "t").2.vintageStocks)
    ∧ ((updateWine exState1 1 exPatchV).2.map (fun w => w.vintageStocks)) = some [⟨2020, 2⟩]
    ∧ ((updateWine exState1 1 exPatchV).2.map (fun w => w.vintageStocks)) ≠ some [⟨2020, 5⟩] := by
  decide

/-- C2, amended: the store performs no duplicate-year merging — a create
stores the supplied `vintageStocks` list verbatim (duplicate years coexist if
supplied), and an update that supplies `vintageStocks` replaces the stored
list wholesale with the supplied one. -/
theorem C2_amended : ∀ (s : MemState) (w : InsertWine) (c : String) (i : Nat)
    (p : WinePatch) (w0 : Wine) (vs : List VintageStock),
    (addWine s w c).2.vintageStocks = w.vintageStocks
    ∧ (mapGet s.wineStore i = some w0 →
        (updateWine s i p).2 = some (mergeWine w0 p)
        ∧ (p.vintageStocks = some vs → (mergeWine w0 p).vintageStocks = vs)) := by
  intro s w c i p w0 vs
  refine ⟨rfl, ?_⟩
  intro hg
  refine ⟨by simp [updateWine, hg], ?_⟩
  intro hv
  simp [mergeWine, hv]

/-- Witness for C2_amended at a concrete store: the record created by
`exInsertRed` exists under id 1, and updating it with a patch supplying
`[{2020, 2}]` stores exactly that list. -/
theorem C2_amended_witness :
    mapGet exState1.wineStore 1 = some exWine1
    ∧ exPatchV.vintageStocks = some [⟨2020, 2⟩]
    ∧ (updateWine exState1 1 exPatchV).2 = some (mergeWine exWine1 exPatchV)
    ∧ (mergeWine exWine1 exPatchV).vintageStocks = [⟨2020, 2⟩] := by
  have h := (C2_amended exState1 exInsertRed "c" 1 exPatchV exWine1 [⟨2020, 2⟩]).2 (by decide)
  exact ⟨by decide, rfl, h.1, h.2 rfl⟩

/-- C3, counterexample: with a prior catalog holding `exCat0` and a source of
exactly one row, the `MemStorage` refresh leaves a catalog of two entries in
which the pre-refresh entry survives — the catalog is not "exactly one entry
per valid row of the source". -/
theorem C3_counterexample :
    exCat0 ∈ getWineCatalog (memRefresh ⟨some [exRow1]⟩ exCatStateOld).2.1
    ∧ (getWineCatalog (memRefresh ⟨some [exRow1]⟩ exCatStateOld).2.1).length = 2 := by
  decide

/-- C3, amended: `DatabaseStorage.loadWineCatalogFromCSV` does replace the
catalog with exactly one row per source row (defaults applied by
`dbParseRow`: missing `category` becomes "Other", missing optional columns
become `null`); `MemStorage.loadWineCatalogFromCSV` instead appends one entry
per row (defaults applied by `memEntry`) to the existing catalog, so
pre-refresh entries survive. -/
theorem C3_amended : ∀ (rows : List CsvRow) (cat : List (Nat × WineCatalogEntry))
    (next : Nat) (cur : List DbCatalogRow),
    (∀ kv ∈ cat, kv.1 < next) →
    ((memRefresh ⟨some rows⟩ ⟨cat, next⟩).2.1.catalogStore = cat ++ buildEntries next rows
     ∧ (buildEntries next rows).length = rows.length
     ∧ (∀ j, (buildEntries next rows).get? j
          = (rows.get? j).map (fun r => (next + j, memEntry (next + j) r)))
     ∧ dbRefresh ⟨some rows⟩ cur = (⟨some rows⟩, rows.map dbParseRow, false)) := by
  intro rows cat next cur h
  refine ⟨?_, buildEntries_length rows next, fun j => buildEntries_get? rows next j, rfl⟩
  simp [memRefresh, memLoadRows_eq rows cat next h]

/-- Witness for C3_amended on a concrete one-row source against an empty
catalog. -/
theorem C3_amended_witness :
    (memRefresh ⟨some [exRow1]⟩ ⟨[], 1⟩).2.1.catalogStore = [] ++ buildEntries 1 [exRow1]
    ∧ dbRefresh ⟨some [exRow1]⟩ [] = (⟨some [exRow1]⟩, [exRow1].map dbParseRow, false) := by
  have h := C3_amended [exRow1] [] 1 [] (by simp)
  exact ⟨h.1, h.2.2.2⟩

/-- C4, counterexample: searching a one-entry catalog with the empty query
returns the entry, not the empty sequence — in JavaScript every string
`includes` the empty string. -/
theorem C4_counterexample :
    memSearch "" [exCatA] = [exCatA] ∧ memSearch "" [exCatA] ≠ [] := by
  refine ⟨memSearch_empty_query [exCatA], ?_⟩
  rw [memSearch_empty_query]
  simp

/-- C4, amended: the empty query matches every entry (search("") returns the
whole catalog); for any query, the result is exactly the entries whose
lowered name contains the lowered query, or whose producer is non-empty and
its lowered form contains the lowered query. -/
theorem C4_amended : ∀ (cat : List WineCatalogEntry) (q : String) (e : WineCatalogEntry),
    memSearch "" cat = cat
    ∧ (e ∈ memSearch q cat ↔
        e ∈ cat ∧ (strIncludes (toLowerStr e.name) (toLowerStr q) = true
                   ∨ (e.producer ≠ "" ∧ strIncludes (toLowerStr e.producer) (toLowerStr q) = true))) := by
  intro cat q e
  refine ⟨memSearch_empty_query cat, ?_⟩
  simp [memSearch, List.mem_filter, Bool.or_eq_true, Bool.and_eq_true, bne_iff_ne]

/-- C5: the owner filter claimed by the spec does not exist — `getWines`
ignores any supplied owner identifier (the method declares no parameter even
though the `GET /api/wines` handler passes the authenticated user id), so a
store holding records of two different owners returns both for
`getWines("alice")`. -/
theorem C5_owner_filter_ignored :
    (∀ (s : MemState) (o1 o2 : Option String), getWines s o1 = getWines s o2)
    ∧ (getWines exStateAB (some "alice")).map (fun w => w.userId) = ["alice", "bob"] := by
  refine ⟨fun s o1 o2 => rfl, ?_⟩
  decide

/-- C6: refreshing against a missing source succeeds — it writes the
header-only file, ends with zero catalog entries, and a second refresh sees
the file already present, again ends with zero entries and does not write
again; this holds for both `MemStorage` and `DatabaseStorage`. -/
theorem C6_missing_source : ∀ (next : Nat),
    memRefresh ⟨none⟩ ⟨[], next⟩ = (⟨some []⟩, ⟨[], next⟩, true)
    ∧ memRefresh (memRefresh ⟨none⟩ ⟨[], next⟩).1 (memRefresh ⟨none⟩ ⟨[], next⟩).2.1
        = (⟨some []⟩, ⟨[], next⟩, false)
    ∧ dbRefresh ⟨none⟩ [] = (⟨some []⟩, [], true)
    ∧ dbRefresh (dbRefresh ⟨none⟩ []).1 (dbRefresh ⟨none⟩ []).2.1 = (⟨some []⟩, [], false) := by
  intro next
  exact ⟨rfl, rfl, rfl, rfl⟩

/-- C7: update is a patch, not a replace — an unknown id yields not-found and
no mutation; a field absent from the patch keeps its stored value (shown per
field, with `id`/`createdAt` never overridable); the empty patch maps the
record to itself, and applying it to an existing id leaves every lookup of
the store unchanged. -/
theorem C7_update_patch_semantics : ∀ (s : MemState) (i : Nat) (p : WinePatch) (w0 : Wine),
    (mapGet s.wineStore i = none → updateWine s i p = (s, none))
    ∧ (mergeWine w0 emptyPatch = w0
       ∧ (p.userId = none → (mergeWine w0 p).userId = w0.userId)
       ∧ (p.name = none → (mergeWine w0 p).name = w0.name)
       ∧ (p.category = none → (mergeWine w0 p).category = w0.category)
       ∧ (p.wine = none → (mergeWine w0 p).wine = w0.wine)
       ∧ (p.subType = none → (mergeWine w0 p).subType = w0.subType)
       ∧ (p.producer = none → (mergeWine w0 p).producer = w0.producer)
       ∧ (p.region = none → (mergeWine w0 p).region = w0.region)
       ∧ (p.country = none → (mergeWine w0 p).country = w0.country)
       ∧ (p.stockLevel = none → (mergeWine w0 p).stockLevel = w0.stockLevel)
       ∧ (p.vintageStocks = none → (mergeWine w0 p).vintageStocks = w0.vintageStocks)
       ∧ (p.imageUrl = none → (mergeWine w0 p).imageUrl = w0.imageUrl)
       ∧ (p.rating = none → (mergeWine w0 p).rating = w0.rating)
       ∧ (p.notes = none → (mergeWine w0 p).notes = w0.notes)
       ∧ (mergeWine w0 p).id = w0.id
       ∧ (mergeWine w0 p).createdAt = w0.createdAt)
    ∧ (mapGet s.wineStore i = some w0 →
        (updateWine s i emptyPatch).2 = some w0
        ∧ ∀ j, getWineById (updateWine s i emptyPatch).1 j = getWineById s j) := by
  intro s i p w0
  refine ⟨?_, ?_, ?_⟩
  · intro h; simp [updateWine, h]
  · refine ⟨rfl, ?_, ?_, ?_, ?_, ?_, ?_, ?_, ?_, ?_, ?_, ?_, ?_, ?_, rfl, rfl⟩ <;>
      (intro h; simp [mergeWine, h])
  · intro hg
    have hhas : mapHas s.wineStore i = true := by
      rw [← mapGet_isSome_eq_mapHas, hg]; rfl
    have hupd : updateWine s i emptyPatch
        = ({ s with wineStore := mapSet s.wineStore i w0 }, some w0) := by
      simp [updateWine, hg, mergeWine_empty]
    refine ⟨by rw [hupd], ?_⟩
    intro j
    rw [hupd]
    show mapGet (mapSet s.wineStore i w0) j = mapGet s.wineStore j
    by_cases hj : j = i
    · subst hj
      rw [mapGet_mapSet_self s.wineStore j w0 hhas]
      exact hg.symm
    · exact mapGet_mapSet_ne s.wineStore i j w0 hj

/-- Witness for C7_update_patch_semantics at a concrete store holding one
record under id 1. -/
theorem C7_witness :
    mapGet exState1.wineStore 1 = some exWine1
    ∧ (updateWine exState1 1 emptyPatch).2 = some exWine1
    ∧ getWineById (updateWine exState1 1 emptyPatch).1 1 = getWineById exState1 1 := by
  have h := (C7_update_patch_semantics exState1 1 emptyPatch exWine1).2.2 (by decide)
  exact ⟨by decide, h.1, h.2 1⟩

/-- A deleted id can no longer be looked up in the database table either. -/
theorem dbGet_after_dbDelete (tbl : List Wine) (i : Nat) :
    dbGetWineById (dbDeleteWine tbl i).1 i = none := by
  induction tbl with
  | nil => rfl
  | cons w t ih =>
    cases hb : (w.id == i) with
    | true =>
      rw [show (dbDeleteWine (w :: t) i).1 = (dbDeleteWine t i).1 from by
        simp [dbDeleteWine, List.filter_cons, bne, hb]]
      exact ih
    | false =>
      rw [show (dbDeleteWine (w :: t) i).1 = w :: (dbDeleteWine t i).1 from by
        simp [dbDeleteWine, List.filter_cons, bne, hb]]
      rw [show dbGetWineById (w :: (dbDeleteWine t i).1) i
            = dbGetWineById (dbDeleteWine t i).1 i from by
        simp [dbGetWineById, List.find?, hb]]
      exact ih

/-- C8, counterexample: on `DatabaseStorage` (whose `deleteWine` returns
`!!result` on the awaited query-result object, an object that is always
truthy), deleting an id from an empty table returns `true` — and so does a
second delete of the same absent id — contradicting the claim that delete
returns false when no such record existed. -/
theorem C8_counterexample :
    (dbDeleteWine ([] : List Wine) 1).2 = true
    ∧ (dbDeleteWine (dbDeleteWine ([] : List Wine) 1).1 1).2 = true
    ∧ (dbDeleteWine ([] : List Wine) 1).2 ≠ false := by
  exact ⟨rfl, rfl, by simp [dbDeleteWine]⟩

/-- C8, amended: on `MemStorage`, delete returns true exactly when the id was
present, a lookup of a deleted id is not-found, and a second delete of the
same id returns false (hence two deletes of an absent id return false both
times); on `DatabaseStorage`, delete does remove the row and a subsequent
lookup is not-found, but it returns `true` unconditionally — even when no
record with the id existed — because it returns `!!result` on the
query-result object. -/
theorem C8_amended : ∀ (s : MemState) (i : Nat) (tbl : List Wine),
    ((deleteWine s i).2 = (mapGet s.wineStore i).isSome
     ∧ getWineById (deleteWine s i).1 i = none
     ∧ (deleteWine (deleteWine s i).1 i).2 = false)
    ∧ ((dbDeleteWine tbl i).2 = true
       ∧ dbGetWineById (dbDeleteWine tbl i).1 i = none
       ∧ (dbDeleteWine (dbDeleteWine tbl i).1 i).2 = true) := by
  intro s i tbl
  refine ⟨⟨?_, ?_, ?_⟩, rfl, dbGet_after_dbDelete tbl i, rfl⟩
  · rw [mapGet_isSome_eq_mapHas]; rfl
  · exact mapGet_mapRemove s.wineStore i
  · exact mapHas_mapRemove s.wineStore i

/-- C9, counterexample: a well-typed create whose category is outside the
enum and whose `vintageStocks` holds a far-future year with a negative stock
passes `insertWineSchema`, so the `POST /api/wines` boundary accepts it and
mutates the store — the boundary does not reject it. -/
theorem C9_counterexample :
    insertWineValidate exBadCategory = true
    ∧ ((postWine memInit exBadCategory "t").2).isSome = true
    ∧ (postWine memInit exBadCategory "t").1 ≠ memInit
    ∧ exBadCategory.category ∉ wineCategories
    ∧ exBadCategory.vintageStocks.all
        (fun v => decide (2026 < v.vintage) && decide (v.stock < 0)) = true := by
  decide

/-- C9, amended: the server write boundary (`insertWineSchema`, used by both
POST and PATCH) enforces only the rating range [1,5] among the value
constraints the claim lists, and a rejected write leaves the store untouched;
the category enum, the vintage-year ≤ current-year bound and the non-negative
stock bounds are enforced only by the client-side `wineFormSchema`. -/
theorem C9_amended : ∀ (s : MemState) (input : InsertWine) (c : String) (y : Int)
    (i : Nat) (p : WinePatch),
    (insertWineValidate input = false → postWine s input c = (s, none))
    ∧ (patchValidate p = false → patchWine s i p = (s, none))
    ∧ (insertWineValidate input = true → ∀ r, input.rating = some r → 1 ≤ r ∧ r ≤ 5)
    ∧ (wineFormValidate y input = true →
        input.category ∈ wineFormCategories
        ∧ 0 ≤ input.stockLevel
        ∧ ∀ v ∈ input.vintageStocks, 1900 ≤ v.vintage ∧ v.vintage ≤ y ∧ 0 ≤ v.stock) := by
  intro s input c y i p
  refine ⟨?_, ?_, ?_, ?_⟩
  · intro h; simp [postWine, h]
  · intro h; simp [patchWine, h]
  · intro h r hr
    rw [insertWineValidate, hr] at h
    simpa using h
  · intro h
    rw [wineFormValidate] at h
    simp only [Bool.and_eq_true, decide_eq_true_eq, List.all_eq_true] at h
    exact ⟨h.1.1.1.2, h.1.1.2, fun v hv => by
      have := h.1.2 v hv
      simp only [Bool.and_eq_true, decide_eq_true_eq] at this
      exact ⟨this.1.1, this.1.2, this.2⟩⟩

/-- Witness for C9_amended: an out-of-range rating is the one thing the
boundary does reject, and the rejected create leaves the store unchanged. -/
theorem C9_amended_witness :
    insertWineValidate exBadRated = false
    ∧ postWine memInit exBadRated "t" = (memInit, none) := by
  refine ⟨by decide, ?_⟩
  exact (C9_amended memInit exBadRated "t" 2026 1 emptyPatch).1 (by decide)

/-- C10: along any run of operations from the fresh store, the ids handed out
by creates are pairwise strictly increasing (so never reused, deletes
included in the run); each create returns the current counter as the new id
and increments the counter, and a delete leaves the counter alone. -/
theorem C10_ids_strictly_increasing : ∀ (ops : List MemOp) (s : MemState)
    (w : InsertWine) (c : String) (i : Nat),
    List.Pairwise (fun a b => a < b) (traceAdds memInit ops)
    ∧ (addWine s w c).2.id = s.wineCurrentId
    ∧ (addWine s w c).1.wineCurrentId = s.wineCurrentId + 1
    ∧ (deleteWine s i).1.wineCurrentId = s.wineCurrentId := by
  intro ops s w c i
  exact ⟨traceAdds_pairwise ops memInit, rfl, rfl, rfl⟩

end Cellars
